import Mathlib

/-!
Verification model of devops_screening_script.py, a tiered-storage lifecycle
manager: records are ingested into a Hot tier, demoted Hot to Cool to Archive
by an age-driven transition pass, and retrieved with a rehydration step for
Archive-resident records.

Modelling conventions (shallow embedding of the Python source):

-- A stored file is an association-list entry keyed by the record identifier.
   Each tier directory (hot, cool, archive, rehydrated) is one list.
   The entry value models the raw bytes stored under the canonical filename
   for that tier (id.json in hot and rehydrated, id.json.gz in cool and
   archive); os.listdir is the list of keys, os.path.exists is key lookup.
-- Payload bytes are modelled by the Bytes type: the json library and gzip
   are external lossless codecs, so a payload is represented by the record
   value it denotes plus a tag saying whether the bytes are gzip-compressed
   (and at what compresslevel).  A Bytes.plain value stored in a tier that is
   read with compressed=True models a corrupt file (gzip.open raises, the
   handler in read_data returns None), and symmetrically for Bytes.gzipped
   read uncompressed (json.loads raises on the binary payload).
-- Timestamps are integers counting seconds.  Python computes
   (now - invoice_date).days, which is floor division of the elapsed seconds
   by 86400; for the positive divisor 86400 the Int division of Lean (ediv)
   is exactly floor division.
-- The float comparison days / 30.44 >= months is modelled exactly as the
   rational comparison 25 * days >= 761 * months (30.44 = 761 / 25).  For the
   two active thresholds (3 and 12 months) no integer day count makes the two
   sides equal, and the nearest boundary is at relative distance about 1/2283
   from any integer day count, many orders of magnitude above double rounding
   error, so the exact comparison agrees with the float one on every input.
-- I/O failures that the script catches are modelled by an explicit fault
   oracle (Faults): per identifier, whether a destination write or a source
   delete raises.  write_data catches its own exceptions, so a failed write
   leaves the destination unchanged and execution continues; a failed delete
   raises into the per-record try/except of manage_data_tiers, which logs and
   continues with the next file.
-/

/-- The decoded JSON dictionary of one billing record.  The only field the
core logic inspects is invoice_date (absent or unparsable is modelled as
none); every other field of the dictionary is abstracted into content. -/
structure RecordData where
  invoice_date : Option Int
  content : Nat
deriving DecidableEq

/-- The bytes stored in one file: a JSON serialization of a record, either
plain or wrapped by gzip at some compresslevel. -/
inductive Bytes where
  | plain : RecordData → Bytes
  | gzipped : Nat → RecordData → Bytes
deriving DecidableEq

/-- Payload construction of write_data: json.dumps then, when a compression
level is given, gzip at that level. -/
def encodeBytes (d : RecordData) (lvl : Option Nat) : Bytes :=
  match lvl with
  | none => Bytes.plain d
  | some l => Bytes.gzipped l d

/-- Payload interpretation of read_data for a file that exists: gzip.open
when compressed is requested (raising on a non-gzip payload), then
json.loads (raising on a gzip payload read without decompression). -/
def decodeBytes (b : Bytes) (compressed : Bool) : Option RecordData :=
  match compressed, b with
  | true, Bytes.gzipped _ d => some d
  | true, Bytes.plain _ => none
  | false, Bytes.plain d => some d
  | false, Bytes.gzipped _ _ => none

/-- read_data: returns None on a missing file (FileNotFoundError handler)
and on any decode failure (the catch-all handler); otherwise the decoded
dictionary. -/
def read_data (entry : Option Bytes) (compressed : Bool) : Option RecordData :=
  match entry with
  | none => none
  | some b => decodeBytes b compressed

/-- One tier directory: the files present, keyed by record identifier. -/
abbrev TierList := List (String × Bytes)

/-- os.path.exists plus open: the bytes stored for an identifier, if any. -/
def lookupT (l : TierList) (k : String) : Option Bytes :=
  (l.find? (fun e => e.1 == k)).map (fun e => e.2)

/-- A whole-file write: creating the file or overwriting it in place. -/
def setEntry (l : TierList) (k : String) (v : Bytes) : TierList :=
  l.filter (fun e => e.1 != k) ++ [(k, v)]

/-- os.remove of the file of an identifier. -/
def removeEntry (l : TierList) (k : String) : TierList :=
  l.filter (fun e => e.1 != k)

/-- os.listdir: the identifiers present in a tier directory. -/
def keysOf (l : TierList) : List String :=
  l.map (fun e => e.1)

/-- A filesystem directory lists every name once. -/
abbrev wfT (l : TierList) : Prop :=
  (keysOf l).Nodup

/-- The four tier directories of the script. -/
structure TierState where
  hot : TierList
  cool : TierList
  archive : TierList
  rehydrated : TierList
deriving DecidableEq

/-- The two scanned directories are well formed filesystem listings. -/
abbrev wfS (s : TierState) : Prop :=
  wfT s.hot ∧ wfT s.cool

-- Configuration constants of the source.
def HOT_TIER_RETENTION_MONTHS : Int := 3
def COOL_TIER_RETENTION_MONTHS : Int := 12
def COOL_COMPRESSION_LEVEL : Nat := 5
def ARCHIVE_COMPRESSION_LEVEL : Nat := 9

/-- The eligibility comparison of manage_data_tiers:
age_in_months = (now - invoice_date).days / 30.44, compared inclusively
against the retention threshold.  The day count is Python timedelta.days,
floor division of the elapsed seconds by 86400, and the float comparison is
rendered exactly (see the header): days / 30.44 >= m iff 25 * days >= 761 * m. -/
def is_eligible (issued now m : Int) : Bool :=
  761 * m ≤ 25 * ((now - issued) / 86400)

/-- The full per-file eligibility test of a transition scan: the file decodes,
carries an invoice_date, and its age passes the threshold. -/
def eligB (now thresh : Int) (compressed : Bool) (e : Option Bytes) : Bool :=
  match read_data e compressed with
  | none => false
  | some d =>
    match d.invoice_date with
    | none => false
    | some t => is_eligible t now thresh

/-- Which store operations raise, per identifier, during one transition
pass.  A raising write is caught inside write_data (execution continues, the
destination is unchanged); a raising delete is caught by the per-record
handler of manage_data_tiers (the record is skipped, the pass continues). -/
structure Faults where
  coolWriteFails : String → Bool
  hotDeleteFails : String → Bool
  archiveWriteFails : String → Bool
  coolDeleteFails : String → Bool

/-- The fault-free environment: every store operation succeeds. -/
def noFaults : Faults :=
  ⟨fun _ => false, fun _ => false, fun _ => false, fun _ => false⟩

/-- One tier scan of manage_data_tiers, shared by the Hot to Cool and the
Cool to Archive phases.  names is the os.listdir snapshot taken when the
scan starts; per name the current file is read from src (skipping on decode
failure or missing invoice_date), the age test is applied, and an eligible
record is written to dst gzip-compressed at lvl and then deleted from src.
The counter counts records reported as moving (the eligible branch). -/
def scanNames (now thresh : Int) (lvl : Nat) (compressed : Bool)
    (wF dF : String → Bool) :
    List String → TierList → TierList → Nat → TierList × TierList × Nat
  | [], src, dst, k => (src, dst, k)
  | n :: rest, src, dst, k =>
    match read_data (lookupT src n) compressed with
    | none => scanNames now thresh lvl compressed wF dF rest src dst k
    | some d =>
      match d.invoice_date with
      | none => scanNames now thresh lvl compressed wF dF rest src dst k
      | some t =>
        if is_eligible t now thresh then
          scanNames now thresh lvl compressed wF dF rest
            (if dF n then src else removeEntry src n)
            (if wF n then dst else setEntry dst n (Bytes.gzipped lvl d))
            (k + 1)
        else
          scanNames now thresh lvl compressed wF dF rest src dst k

/-- manage_data_tiers: phase 1 scans the Hot directory listing against the
3 month threshold, moving records into Cool at compresslevel 5; phase 2 then
lists the Cool directory (after phase 1, so records phase 1 just moved are
included) and scans it against the 12 month threshold, moving records into
Archive at compresslevel 9.  Returns the new state and the two move counts. -/
def manage_data_tiers (now : Int) (f : Faults) (s : TierState) :
    TierState × Nat × Nat :=
  let r1 := scanNames now HOT_TIER_RETENTION_MONTHS COOL_COMPRESSION_LEVEL
    false f.coolWriteFails f.hotDeleteFails (keysOf s.hot) s.hot s.cool 0
  let r2 := scanNames now COOL_TIER_RETENTION_MONTHS ARCHIVE_COMPRESSION_LEVEL
    true f.archiveWriteFails f.coolDeleteFails (keysOf r1.2.1) r1.2.1 s.archive 0
  (⟨r1.1, r2.1, r2.2.1, s.rehydrated⟩, r1.2.2, r2.2.2)

/-- retrieve_data: probe Hot (uncompressed), then Cool (compressed), then
Archive; on an Archive hit, simulate the rehydration latency, decompress,
and materialize the decoded record into the rehydrated directory (write_data
catches a failing cache write, so the decoded record is still returned).
Returns the result of the probe (None on a miss or an unreadable payload)
and the resulting state.  high_priority only scales the simulated latency. -/
def retrieve_data (s : TierState) (id : String) (high_priority : Bool)
    (cacheWriteFails : Bool) : Option RecordData × TierState :=
  match lookupT s.hot id with
  | some b => (read_data (some b) false, s)
  | none =>
    match lookupT s.cool id with
    | some b => (read_data (some b) true, s)
    | none =>
      match lookupT s.archive id with
      | some b =>
        -- simulated rehydration latency: 5 seconds expedited, 15 standard
        let _retrieval_time_sec : Nat := if high_priority then 5 else 15
        match read_data (some b) true with
        | some d =>
          (some d,
           if cacheWriteFails then s
           else { s with rehydrated := setEntry s.rehydrated id (Bytes.plain d) })
        | none => (none, s)
      | none => (none, s)

/-- The first tier that holds an identifier, in probe order, with the
compression flag the probe uses to read it. -/
def firstHit (s : TierState) (id : String) : Option (Bytes × Bool) :=
  match lookupT s.hot id with
  | some b => some (b, false)
  | none =>
    match lookupT s.cool id with
    | some b => some (b, true)
    | none =>
      match lookupT s.archive id with
      | some b => some (b, true)
      | none => none

/-- How many of the three lifecycle tiers hold an identifier. -/
def presenceCount (s : TierState) (j : String) : Nat :=
  (lookupT s.hot j).isSome.toNat + (lookupT s.cool j).isSome.toNat +
    (lookupT s.archive j).isSome.toNat

/-- The at-most-one-location invariant over the three lifecycle tiers. -/
def atMostOneTier (s : TierState) : Prop :=
  ∀ j, presenceCount s j ≤ 1

/-! ### Store lemmas -/

theorem lookupT_cons (e : String × Bytes) (rest : TierList) (j : String) :
    lookupT (e :: rest) j = if e.1 = j then some e.2 else lookupT rest j := by
  by_cases h : e.1 = j <;> simp [lookupT, List.find?_cons, h]

theorem lookupT_nil (j : String) : lookupT ([] : TierList) j = none := rfl

theorem lookupT_removeEntry (l : TierList) (k j : String) :
    lookupT (removeEntry l k) j = if j = k then none else lookupT l j := by
  induction l with
  | nil => simp [removeEntry, lookupT_nil]
  | cons e rest ih =>
    by_cases he : e.1 = k
    · have h1 : removeEntry (e :: rest) k = removeEntry rest k := by
        simp [removeEntry, List.filter_cons, he]
      rw [h1, ih, lookupT_cons]
      by_cases hj : j = k
      · simp [hj]
      · have hej : ¬ e.1 = j := by rw [he]; exact fun h => hj h.symm
        simp [hej, hj]
    · have h1 : removeEntry (e :: rest) k = e :: removeEntry rest k := by
        simp [removeEntry, List.filter_cons, he]
      rw [h1, lookupT_cons, lookupT_cons, ih]
      by_cases hej : e.1 = j
      · have hj : ¬ j = k := fun h => he (hej.trans h)
        simp [hej, hj]
      · simp [hej]

theorem lookupT_append (l₁ l₂ : TierList) (j : String) :
    lookupT (l₁ ++ l₂) j =
      match lookupT l₁ j with
      | some v => some v
      | none => lookupT l₂ j := by
  induction l₁ with
  | nil => simp [lookupT_nil]
  | cons e rest ih =>
    rw [List.cons_append, lookupT_cons, lookupT_cons]
    by_cases he : e.1 = j <;> simp [he, ih]

theorem lookupT_setEntry (l : TierList) (k j : String) (v : Bytes) :
    lookupT (setEntry l k v) j = if j = k then some v else lookupT l j := by
  have h1 : setEntry l k v = removeEntry l k ++ [(k, v)] := rfl
  rw [h1, lookupT_append, lookupT_removeEntry]
  by_cases h : j = k
  · simp [h, lookupT_cons, lookupT_nil]
  · cases hl : lookupT l j <;> simp [h, hl, lookupT_cons, lookupT_nil, Ne.symm h]

theorem lookupT_none_iff (l : TierList) (j : String) :
    lookupT l j = none ↔ j ∉ keysOf l := by
  induction l with
  | nil => simp [lookupT_nil, keysOf]
  | cons e rest ih =>
    rw [lookupT_cons]
    by_cases he : e.1 = j
    · simp [keysOf, he]
    · have hk : keysOf (e :: rest) = e.1 :: keysOf rest := rfl
      rw [if_neg he, ih, hk]
      constructor
      · intro h hm
        rcases List.mem_cons.mp hm with h1 | h2
        · exact he h1.symm
        · exact h h2
      · intro h hm
        exact h (List.mem_cons_of_mem _ hm)

theorem mem_keys_of_lookupT {l : TierList} {j : String} {b : Bytes}
    (h : lookupT l j = some b) : j ∈ keysOf l := by
  by_contra hm
  rw [← lookupT_none_iff] at hm
  rw [h] at hm
  exact Option.noConfusion hm

theorem keysOf_removeEntry_nodup {l : TierList} (k : String)
    (h : (keysOf l).Nodup) : (keysOf (removeEntry l k)).Nodup := by
  unfold keysOf removeEntry at *
  exact List.Nodup.sublist (List.Sublist.map _ (List.filter_sublist l)) h

theorem keysOf_setEntry_nodup {l : TierList} (k : String) (v : Bytes)
    (h : (keysOf l).Nodup) : (keysOf (setEntry l k v)).Nodup := by
  have hrem := keysOf_removeEntry_nodup k h
  have hk : keysOf (setEntry l k v) = keysOf (removeEntry l k) ++ [k] := by
    simp [setEntry, removeEntry, keysOf]
  rw [hk, List.nodup_append]
  refine ⟨hrem, List.nodup_singleton k, ?_⟩
  intro a ha hb
  rw [List.mem_singleton] at hb
  subst hb
  rw [keysOf, List.mem_map] at ha
  obtain ⟨e, hel, hek⟩ := ha
  rw [removeEntry, List.mem_filter] at hel
  have h2 := hel.2
  rw [hek] at h2
  simp at h2

/-! ### Transition scan lemmas -/

theorem eligB_true_elim {now thresh : Int} {compressed : Bool} {e : Option Bytes}
    (h : eligB now thresh compressed e = true) :
    ∃ d t, read_data e compressed = some d ∧ d.invoice_date = some t ∧
      is_eligible t now thresh = true := by
  unfold eligB at h
  cases h1 : read_data e compressed with
  | none => simp [h1] at h
  | some d =>
    simp only [h1] at h
    cases h2 : d.invoice_date with
    | none => simp [h2] at h
    | some t =>
      simp only [h2] at h
      exact ⟨d, t, rfl, h2, h⟩

theorem scanNames_skip {now thresh : Int} {lvl : Nat} {compressed : Bool}
    {wF dF : String → Bool} {n : String} {rest : List String}
    {src dst : TierList} {k : Nat}
    (h : eligB now thresh compressed (lookupT src n) = false) :
    scanNames now thresh lvl compressed wF dF (n :: rest) src dst k =
      scanNames now thresh lvl compressed wF dF rest src dst k := by
  unfold eligB at h
  simp only [scanNames]
  cases h1 : read_data (lookupT src n) compressed with
  | none => simp only [h1]
  | some d =>
    simp only [h1] at h ⊢
    cases h2 : d.invoice_date with
    | none => simp only [h2]
    | some t =>
      simp only [h2] at h ⊢
      simp [h]

theorem scanNames_move {now thresh : Int} {lvl : Nat} {compressed : Bool}
    {wF dF : String → Bool} {n : String} {rest : List String}
    {src dst : TierList} {k : Nat} {d : RecordData} {t : Int}
    (h1 : read_data (lookupT src n) compressed = some d)
    (h2 : d.invoice_date = some t)
    (h3 : is_eligible t now thresh = true) :
    scanNames now thresh lvl compressed wF dF (n :: rest) src dst k =
      scanNames now thresh lvl compressed wF dF rest
        (if dF n then src else removeEntry src n)
        (if wF n then dst else setEntry dst n (Bytes.gzipped lvl d))
        (k + 1) := by
  simp only [scanNames, h1, h2, h3, if_true]

theorem scanNames_all_skip (now thresh : Int) (lvl : Nat) (compressed : Bool)
    (wF dF : String → Bool) (names : List String) (src dst : TierList) (k : Nat)
    (h : ∀ n ∈ names, eligB now thresh compressed (lookupT src n) = false) :
    scanNames now thresh lvl compressed wF dF names src dst k = (src, dst, k) := by
  induction names with
  | nil => rfl
  | cons n rest ih =>
    rw [scanNames_skip (h n (List.mem_cons_self n rest))]
    exact ih (fun m hm => h m (List.mem_cons_of_mem _ hm))

theorem scanNames_lookup_src (now thresh : Int) (lvl : Nat) (compressed : Bool)
    (wF dF : String → Bool) :
    ∀ (names : List String), names.Nodup →
    ∀ (src dst : TierList) (k : Nat) (j : String),
    lookupT (scanNames now thresh lvl compressed wF dF names src dst k).1 j =
      if j ∈ names ∧ eligB now thresh compressed (lookupT src j) = true ∧
          dF j = false
      then none else lookupT src j := by
  intro names
  induction names with
  | nil => intro _ src dst k j; simp [scanNames]
  | cons n rest ih =>
    intro hnd src dst k j
    have hndr : rest.Nodup := (List.nodup_cons.mp hnd).2
    have hnin : n ∉ rest := (List.nodup_cons.mp hnd).1
    by_cases hj : n = j
    · subst hj
      cases he : eligB now thresh compressed (lookupT src n) with
      | false =>
        rw [scanNames_skip he, ih hndr src dst k n]
        simp [he]
      | true =>
        obtain ⟨d, t, hd, ht, helig⟩ := eligB_true_elim he
        rw [scanNames_move hd ht helig]
        cases hdF : dF n with
        | true =>
          rw [show (if true = true then src else removeEntry src n) = src from rfl,
            ih hndr]
          simp [hnin]
        | false =>
          rw [show (if false = true then src else removeEntry src n) =
              removeEntry src n from rfl, ih hndr]
          have hrm : lookupT (removeEntry src n) n = none := by
            simp [lookupT_removeEntry]
          simp [hnin, hrm]
    · have hjn : ¬ j = n := fun h => hj h.symm
      cases he : eligB now thresh compressed (lookupT src n) with
      | false =>
        rw [scanNames_skip he, ih hndr src dst k j]
        simp [List.mem_cons, hjn]
      | true =>
        obtain ⟨d, t, hd, ht, helig⟩ := eligB_true_elim he
        rw [scanNames_move hd ht helig]
        have hsrc : lookupT (if dF n then src else removeEntry src n) j =
            lookupT src j := by
          cases hdF : dF n with
          | true => simp
          | false => simp [lookupT_removeEntry, hjn]
        rw [ih hndr]
        simp only [hsrc]
        simp [List.mem_cons, hjn]

theorem scanNames_lookup_dst (now thresh : Int) (lvl : Nat) (compressed : Bool)
    (wF dF : String → Bool) :
    ∀ (names : List String), names.Nodup →
    ∀ (src dst : TierList) (k : Nat) (j : String),
    lookupT (scanNames now thresh lvl compressed wF dF names src dst k).2.1 j =
      if j ∈ names ∧ eligB now thresh compressed (lookupT src j) = true ∧
          wF j = false
      then (read_data (lookupT src j) compressed).map (Bytes.gzipped lvl)
      else lookupT dst j := by
  intro names
  induction names with
  | nil => intro _ src dst k j; simp [scanNames]
  | cons n rest ih =>
    intro hnd src dst k j
    have hndr : rest.Nodup := (List.nodup_cons.mp hnd).2
    have hnin : n ∉ rest := (List.nodup_cons.mp hnd).1
    by_cases hj : n = j
    · subst hj
      cases he : eligB now thresh compressed (lookupT src n) with
      | false =>
        rw [scanNames_skip he, ih hndr src dst k n]
        simp [he]
      | true =>
        obtain ⟨d, t, hd, ht, helig⟩ := eligB_true_elim he
        rw [scanNames_move hd ht helig]
        cases hwF : wF n with
        | true =>
          rw [show (if true = true then dst else
              setEntry dst n (Bytes.gzipped lvl d)) = dst from rfl, ih hndr]
          simp [hnin]
        | false =>
          rw [show (if false = true then dst else
              setEntry dst n (Bytes.gzipped lvl d)) =
              setEntry dst n (Bytes.gzipped lvl d) from rfl, ih hndr]
          have hset : lookupT (setEntry dst n (Bytes.gzipped lvl d)) n =
              some (Bytes.gzipped lvl d) := by
            simp [lookupT_setEntry]
          simp [hnin, hset, hd]
    · have hjn : ¬ j = n := fun h => hj h.symm
      cases he : eligB now thresh compressed (lookupT src n) with
      | false =>
        rw [scanNames_skip he, ih hndr src dst k j]
        simp [List.mem_cons, hjn]
      | true =>
        obtain ⟨d, t, hd, ht, helig⟩ := eligB_true_elim he
        rw [scanNames_move hd ht helig]
        have hsrc : lookupT (if dF n then src else removeEntry src n) j =
            lookupT src j := by
          cases hdF : dF n with
          | true => simp
          | false => simp [lookupT_removeEntry, hjn]
        have hdst : lookupT (if wF n then dst else
            setEntry dst n (Bytes.gzipped lvl d)) j = lookupT dst j := by
          cases hwF : wF n with
          | true => simp
          | false => simp [lookupT_setEntry, hjn]
        rw [ih hndr]
        simp only [hsrc, hdst]
        simp [List.mem_cons, hjn]

theorem scanNames_wf (now thresh : Int) (lvl : Nat) (compressed : Bool)
    (wF dF : String → Bool) :
    ∀ (names : List String) (src dst : TierList) (k : Nat),
    wfT src → wfT dst →
    wfT (scanNames now thresh lvl compressed wF dF names src dst k).1 ∧
      wfT (scanNames now thresh lvl compressed wF dF names src dst k).2.1 := by
  intro names
  induction names with
  | nil => intro src dst k hs hd; exact ⟨hs, hd⟩
  | cons n rest ih =>
    intro src dst k hs hd
    cases he : eligB now thresh compressed (lookupT src n) with
    | false => rw [scanNames_skip he]; exact ih src dst k hs hd
    | true =>
      obtain ⟨d, t, h1, h2, h3⟩ := eligB_true_elim he
      rw [scanNames_move h1 h2 h3]
      apply ih
      · cases hdF : dF n with
        | true => exact hs
        | false => exact keysOf_removeEntry_nodup n hs
      · cases hwF : wF n with
        | true => exact hd
        | false => exact keysOf_setEntry_nodup n _ hd

theorem mem_keys_iff_isSome (l : TierList) (j : String) :
    j ∈ keysOf l ↔ (lookupT l j).isSome = true := by
  constructor
  · intro hm
    cases hl : lookupT l j with
    | none => exact absurd hm ((lookupT_none_iff l j).mp hl)
    | some b => rfl
  · intro hs
    cases hl : lookupT l j with
    | none => rw [hl] at hs; exact absurd hs (by simp)
    | some b => exact mem_keys_of_lookupT hl

/-- For one fault-free-delete scan, per identifier, the number of copies in
source plus destination never grows. -/
theorem scan_count_le (now thresh : Int) (lvl : Nat) (compressed : Bool)
    (wF dF : String → Bool) (names : List String) (hnd : names.Nodup)
    (src dst : TierList) (k : Nat) (j : String) (hdF : dF j = false) :
    (lookupT (scanNames now thresh lvl compressed wF dF names src dst k).1 j).isSome.toNat +
      (lookupT (scanNames now thresh lvl compressed wF dF names src dst k).2.1 j).isSome.toNat ≤
      (lookupT src j).isSome.toNat + (lookupT dst j).isSome.toNat := by
  rw [scanNames_lookup_src now thresh lvl compressed wF dF names hnd src dst k j,
    scanNames_lookup_dst now thresh lvl compressed wF dF names hnd src dst k j]
  by_cases hc : j ∈ names ∧ eligB now thresh compressed (lookupT src j) = true
  · obtain ⟨hm, he⟩ := hc
    have hsome : (lookupT src j).isSome = true := by
      obtain ⟨d, t, hdp, _, _⟩ := eligB_true_elim he
      cases hl : lookupT src j with
      | none => rw [hl] at hdp; exact absurd hdp (by simp [read_data])
      | some b => rfl
    rw [if_pos ⟨hm, he, hdF⟩]
    have hmap : (Option.map (Bytes.gzipped lvl)
        (read_data (lookupT src j) compressed)).isSome.toNat ≤ 1 := by
      cases read_data (lookupT src j) compressed <;> simp
    by_cases hw : wF j = false
    · rw [if_pos ⟨hm, he, hw⟩]
      simp only [Option.isSome_none, Bool.toNat_false, Nat.zero_add, hsome,
        Bool.toNat_true]
      omega
    · rw [if_neg (fun hand => hw hand.2.2)]
      simp only [Option.isSome_none, Bool.toNat_false, Nat.zero_add, hsome,
        Bool.toNat_true]
      omega
  · have hnc1 : ¬ (j ∈ names ∧ eligB now thresh compressed (lookupT src j) = true ∧
        dF j = false) := fun hand => hc ⟨hand.1, hand.2.1⟩
    have hnc2 : ¬ (j ∈ names ∧ eligB now thresh compressed (lookupT src j) = true ∧
        wF j = false) := fun hand => hc ⟨hand.1, hand.2.1⟩
    rw [if_neg hnc1, if_neg hnc2]

/-- After a fault-free-delete scan over the listing of its own source, every
record still present in the source is not eligible: it was either skipped as
not eligible (and left unchanged) or it was never listed. -/
theorem scan_result_not_elig (now thresh : Int) (lvl : Nat) (compressed : Bool)
    (wF dF : String → Bool) (hdF : ∀ i, dF i = false)
    (src dst : TierList) (k : Nat) (hnd : (keysOf src).Nodup) (n : String)
    (hmem : n ∈ keysOf
      (scanNames now thresh lvl compressed wF dF (keysOf src) src dst k).1) :
    eligB now thresh compressed
      (lookupT (scanNames now thresh lvl compressed wF dF (keysOf src) src dst k).1 n) =
      false := by
  have hl := scanNames_lookup_src now thresh lvl compressed wF dF (keysOf src)
    hnd src dst k n
  rw [mem_keys_iff_isSome] at hmem
  by_cases hc : n ∈ keysOf src ∧ eligB now thresh compressed (lookupT src n) = true ∧
      dF n = false
  · rw [hl, if_pos hc] at hmem
    exact absurd hmem (by simp)
  · rw [hl, if_neg hc] at hmem ⊢
    have hA : n ∈ keysOf src := (mem_keys_iff_isSome src n).mpr hmem
    cases hB : eligB now thresh compressed (lookupT src n) with
    | false => rfl
    | true => exact absurd ⟨hA, hB, hdF n⟩ hc

/-! ### Claims -/

/-- C4: for every record dictionary and every compression level, including
none, decoding the payload produced by write_data, read back with the
compression flag matching how it was written, yields the original record
field for field. -/
theorem codec_round_trip (d : RecordData) (lvl : Option Nat) :
    decodeBytes (encodeBytes d lvl) lvl.isSome = some d := by
  cases lvl <;> rfl

/-- C3 counterexample: 2630016 seconds is exactly 30.44 days, so a record
issued exactly 3 months of 30.44 days each before now (the inclusive age
boundary of the claim) is NOT eligible at the 3 month threshold: the
timedelta day count floors 91.32 days to 91 whole days and 91 / 30.44 is
below 3. -/
theorem exact_month_boundary_not_eligible :
    (2630016 : Int) * 100 = 86400 * 3044 ∧
      is_eligible 0 (3 * 2630016) HOT_TIER_RETENTION_MONTHS = false := by
  constructor
  · decide
  · decide

/-- C3 amended: eligibility is the inclusive comparison of whole elapsed
days (floored, as timedelta.days computes) divided by 30.44 against the
threshold; because the day count is floored, the effective boundary for the
active thresholds sits at the next whole day above threshold * 30.44 days:
92 whole days for 3 months and 366 whole days for 12 months.  A record
exactly at that whole-day boundary is eligible; any instant less is not. -/
theorem eligibility_whole_day_boundary (issued now : Int) :
    (is_eligible issued now HOT_TIER_RETENTION_MONTHS = true ↔
      92 * 86400 ≤ now - issued) ∧
    (is_eligible issued now COOL_TIER_RETENTION_MONTHS = true ↔
      366 * 86400 ≤ now - issued) := by
  unfold is_eligible HOT_TIER_RETENTION_MONTHS COOL_TIER_RETENTION_MONTHS
  simp only [decide_eq_true_eq]
  omega

/-- Fault oracle for C1: the write of BILL-00001 into the cool tier raises
(disk full, permission, ...); every other store operation succeeds. -/
def lossFaults : Faults :=
  ⟨fun i => i == "BILL-00001", fun _ => false, fun _ => false, fun _ => false⟩

/-- One record in Hot, issued at time 0; evaluated at time 8640000
(100 days, about 3.29 months), it is due for the Hot to Cool move. -/
def hotOnlyState : TierState :=
  ⟨[("BILL-00001", Bytes.plain ⟨some 0, 7⟩)], [], [], []⟩

/-- C1: the code deletes the source copy even when the destination write
fails.  write_data catches its own exception and returns normally, so the
os.remove after it runs unconditionally: with one eligible record in Hot
whose cool-tier write raises, the completed pass leaves every tier empty.
The record is lost, against the claim that on a destination write failure
it remains present and readable in its source tier. -/
theorem write_failure_loses_record :
    lookupT hotOnlyState.hot "BILL-00001" = some (Bytes.plain ⟨some 0, 7⟩) ∧
    (manage_data_tiers 8640000 lossFaults hotOnlyState).1 = ⟨[], [], [], []⟩ := by
  constructor
  · decide
  · decide

/-- Fault oracle for the C2 counterexample: the os.remove of BILL-00001 from
the hot tier raises after the cool write succeeded; the per-record handler
logs it and the pass runs to completion. -/
def dupFaults : Faults :=
  ⟨fun _ => false, fun i => i == "BILL-00001", fun _ => false, fun _ => false⟩

/-- C2 counterexample: starting from a state satisfying the invariant (the
identifier lives in Hot only), a transition pass that completes normally but
in which the source delete of that record raised after the destination write
succeeded leaves the identifier present in two tiers, Hot and Cool. -/
theorem completed_pass_can_leave_duplicate :
    presenceCount hotOnlyState "BILL-00001" = 1 ∧
    presenceCount (manage_data_tiers 8640000 dupFaults hotOnlyState).1
      "BILL-00001" = 2 := by
  constructor
  · decide
  · decide

/-- C2 amended: after a completed transition pass in which every source
delete succeeded (destination writes may still fail arbitrarily), starting
from a well formed store in which every identifier was in at most one of
Hot, Cool and Archive, every identifier is again in at most one tier. -/
theorem tier_invariant_preserved (now : Int) (f : Faults) (s : TierState)
    (hwf : wfS s)
    (hd1 : ∀ i, f.hotDeleteFails i = false)
    (hd2 : ∀ i, f.coolDeleteFails i = false)
    (hpre : atMostOneTier s) :
    atMostOneTier (manage_data_tiers now f s).1 := by
  intro j
  have hpj := hpre j
  have hwf1 := scanNames_wf now HOT_TIER_RETENTION_MONTHS COOL_COMPRESSION_LEVEL
    false f.coolWriteFails f.hotDeleteFails (keysOf s.hot) s.hot s.cool 0
    hwf.1 hwf.2
  have hle1 := scan_count_le now HOT_TIER_RETENTION_MONTHS COOL_COMPRESSION_LEVEL
    false f.coolWriteFails f.hotDeleteFails (keysOf s.hot) hwf.1 s.hot s.cool 0
    j (hd1 j)
  have hle2 := scan_count_le now COOL_TIER_RETENTION_MONTHS
    ARCHIVE_COMPRESSION_LEVEL true f.archiveWriteFails f.coolDeleteFails
    (keysOf (scanNames now HOT_TIER_RETENTION_MONTHS COOL_COMPRESSION_LEVEL
      false f.coolWriteFails f.hotDeleteFails (keysOf s.hot) s.hot s.cool 0).2.1)
    hwf1.2
    (scanNames now HOT_TIER_RETENTION_MONTHS COOL_COMPRESSION_LEVEL
      false f.coolWriteFails f.hotDeleteFails (keysOf s.hot) s.hot s.cool 0).2.1
    s.archive 0 j (hd2 j)
  unfold presenceCount at hpj ⊢
  simp only [manage_data_tiers]
  omega

/-- Any state whose cool and archive tiers are empty satisfies the
at-most-one-tier invariant. -/
theorem atMostOne_of_single_hot (e : String × Bytes) (reh : TierList) :
    atMostOneTier ⟨[e], [], [], reh⟩ := by
  intro j
  unfold presenceCount
  cases hl : lookupT [e] j <;> simp [hl, lookupT_nil]

/-- C2 amended, witness: the fault-free pass on the one-record state. -/
theorem tier_invariant_preserved_witness :
    atMostOneTier (manage_data_tiers 8640000 noFaults hotOnlyState).1 :=
  tier_invariant_preserved 8640000 noFaults hotOnlyState
    ⟨by decide, by decide⟩ (fun _ => rfl) (fun _ => rfl)
    (atMostOne_of_single_hot ("BILL-00001", Bytes.plain ⟨some 0, 7⟩) [])

/-- C7: with no ingestion, the same evaluation time and no I/O faults,
running the transition pass a second time moves zero records in both phases
and leaves every tier exactly as the first pass left it: after the first
pass every record still in Hot is below the 3 month threshold and every
record in Cool is below the 12 month threshold, and eligibility is
recomputed from invoice_date alone. -/
theorem transition_pass_idempotent (now : Int) (s : TierState) (hwf : wfS s) :
    manage_data_tiers now noFaults (manage_data_tiers now noFaults s).1 =
      ((manage_data_tiers now noFaults s).1, 0, 0) := by
  simp only [manage_data_tiers]
  set S1 := scanNames now HOT_TIER_RETENTION_MONTHS COOL_COMPRESSION_LEVEL false
    noFaults.coolWriteFails noFaults.hotDeleteFails (keysOf s.hot) s.hot s.cool 0
    with hS1
  set S2 := scanNames now COOL_TIER_RETENTION_MONTHS ARCHIVE_COMPRESSION_LEVEL
    true noFaults.archiveWriteFails noFaults.coolDeleteFails (keysOf S1.2.1)
    S1.2.1 s.archive 0 with hS2
  have hwf1 : wfT S1.1 ∧ wfT S1.2.1 := by
    rw [hS1]
    exact scanNames_wf now HOT_TIER_RETENTION_MONTHS COOL_COMPRESSION_LEVEL false
      noFaults.coolWriteFails noFaults.hotDeleteFails (keysOf s.hot) s.hot s.cool
      0 hwf.1 hwf.2
  have hal1 : ∀ n ∈ keysOf S1.1, eligB now HOT_TIER_RETENTION_MONTHS false
      (lookupT S1.1 n) = false := by
    intro n hn
    rw [hS1] at hn ⊢
    exact scan_result_not_elig now HOT_TIER_RETENTION_MONTHS
      COOL_COMPRESSION_LEVEL false noFaults.coolWriteFails noFaults.hotDeleteFails
      (fun _ => rfl) s.hot s.cool 0 hwf.1 n hn
  have hal2 : ∀ n ∈ keysOf S2.1, eligB now COOL_TIER_RETENTION_MONTHS true
      (lookupT S2.1 n) = false := by
    intro n hn
    rw [hS2] at hn ⊢
    exact scan_result_not_elig now COOL_TIER_RETENTION_MONTHS
      ARCHIVE_COMPRESSION_LEVEL true noFaults.archiveWriteFails
      noFaults.coolDeleteFails (fun _ => rfl) S1.2.1 s.archive 0 hwf1.2 n hn
  have hQ1 := scanNames_all_skip now HOT_TIER_RETENTION_MONTHS
    COOL_COMPRESSION_LEVEL false noFaults.coolWriteFails noFaults.hotDeleteFails
    (keysOf S1.1) S1.1 S2.1 0 hal1
  rw [hQ1]
  have hQ2 := scanNames_all_skip now COOL_TIER_RETENTION_MONTHS
    ARCHIVE_COMPRESSION_LEVEL true noFaults.archiveWriteFails
    noFaults.coolDeleteFails (keysOf S2.1) S2.1 S2.2.1 0 hal2
  rw [hQ2]

/-- Two records: one 100 days old in Hot (due for Cool), one 100 days old
already in Cool (not yet due for Archive). -/
def idemState : TierState :=
  ⟨[("A", Bytes.plain ⟨some 0, 1⟩)], [("B", Bytes.gzipped 5 ⟨some 0, 2⟩)], [], []⟩

/-- C7 witness: the second pass over the two-record state is a no-op. -/
theorem transition_pass_idempotent_witness :
    manage_data_tiers 8640000 noFaults
        (manage_data_tiers 8640000 noFaults idemState).1 =
      ((manage_data_tiers 8640000 noFaults idemState).1, 0, 0) :=
  transition_pass_idempotent 8640000 idemState ⟨by decide, by decide⟩

/-- C10: the Cool directory is listed only after the Hot scan has finished,
so a Hot record already past the 12 month threshold is moved Hot to Cool by
phase 1 and then picked up by the phase 2 listing and moved Cool to Archive
within the same pass: it ends the pass in Archive at compresslevel 9, absent
from Hot and Cool. -/
theorem hot_to_archive_same_pass (now t : Int) (s : TierState) (j : String)
    (d : RecordData) (hwf : wfS s)
    (hhot : lookupT s.hot j = some (Bytes.plain d))
    (hinv : d.invoice_date = some t)
    (hage : is_eligible t now COOL_TIER_RETENTION_MONTHS = true) :
    lookupT (manage_data_tiers now noFaults s).1.hot j = none ∧
    lookupT (manage_data_tiers now noFaults s).1.cool j = none ∧
    lookupT (manage_data_tiers now noFaults s).1.archive j =
      some (Bytes.gzipped ARCHIVE_COMPRESSION_LEVEL d) := by
  have h3 : is_eligible t now HOT_TIER_RETENTION_MONTHS = true := by
    unfold is_eligible HOT_TIER_RETENTION_MONTHS at *
    unfold COOL_TIER_RETENTION_MONTHS at hage
    simp only [decide_eq_true_eq] at *
    omega
  have he1 : eligB now HOT_TIER_RETENTION_MONTHS false (lookupT s.hot j) = true := by
    rw [hhot]
    simp [eligB, read_data, decodeBytes, hinv, h3]
  simp only [manage_data_tiers]
  set S1 := scanNames now HOT_TIER_RETENTION_MONTHS COOL_COMPRESSION_LEVEL false
    noFaults.coolWriteFails noFaults.hotDeleteFails (keysOf s.hot) s.hot s.cool 0
    with hS1
  have hwf1 : wfT S1.1 ∧ wfT S1.2.1 := by
    rw [hS1]
    exact scanNames_wf now HOT_TIER_RETENTION_MONTHS COOL_COMPRESSION_LEVEL false
      noFaults.coolWriteFails noFaults.hotDeleteFails (keysOf s.hot) s.hot s.cool
      0 hwf.1 hwf.2
  have hhot1 : lookupT S1.1 j = none := by
    rw [hS1, scanNames_lookup_src now HOT_TIER_RETENTION_MONTHS
      COOL_COMPRESSION_LEVEL false noFaults.coolWriteFails noFaults.hotDeleteFails
      (keysOf s.hot) hwf.1 s.hot s.cool 0 j,
      if_pos ⟨mem_keys_of_lookupT hhot, he1, rfl⟩]
  have hcool1 : lookupT S1.2.1 j =
      some (Bytes.gzipped COOL_COMPRESSION_LEVEL d) := by
    rw [hS1, scanNames_lookup_dst now HOT_TIER_RETENTION_MONTHS
      COOL_COMPRESSION_LEVEL false noFaults.coolWriteFails noFaults.hotDeleteFails
      (keysOf s.hot) hwf.1 s.hot s.cool 0 j,
      if_pos ⟨mem_keys_of_lookupT hhot, he1, rfl⟩, hhot]
    rfl
  have he2 : eligB now COOL_TIER_RETENTION_MONTHS true (lookupT S1.2.1 j) =
      true := by
    rw [hcool1]
    simp [eligB, read_data, decodeBytes, hinv, hage]
  have hmem2 : j ∈ keysOf S1.2.1 :=
    (mem_keys_iff_isSome S1.2.1 j).mpr (by rw [hcool1]; rfl)
  have hcool2 : lookupT (scanNames now COOL_TIER_RETENTION_MONTHS
      ARCHIVE_COMPRESSION_LEVEL true noFaults.archiveWriteFails
      noFaults.coolDeleteFails (keysOf S1.2.1) S1.2.1 s.archive 0).1 j = none := by
    rw [scanNames_lookup_src now COOL_TIER_RETENTION_MONTHS
      ARCHIVE_COMPRESSION_LEVEL true noFaults.archiveWriteFails
      noFaults.coolDeleteFails (keysOf S1.2.1) hwf1.2 S1.2.1 s.archive 0 j,
      if_pos ⟨hmem2, he2, rfl⟩]
  have harch2 : lookupT (scanNames now COOL_TIER_RETENTION_MONTHS
      ARCHIVE_COMPRESSION_LEVEL true noFaults.archiveWriteFails
      noFaults.coolDeleteFails (keysOf S1.2.1) S1.2.1 s.archive 0).2.1 j =
      some (Bytes.gzipped ARCHIVE_COMPRESSION_LEVEL d) := by
    rw [scanNames_lookup_dst now COOL_TIER_RETENTION_MONTHS
      ARCHIVE_COMPRESSION_LEVEL true noFaults.archiveWriteFails
      noFaults.coolDeleteFails (keysOf S1.2.1) hwf1.2 S1.2.1 s.archive 0 j,
      if_pos ⟨hmem2, he2, rfl⟩, hcool1]
    rfl
  exact ⟨hhot1, hcool2, harch2⟩

/-- One record in Hot, issued at time 0, evaluated 400 days later (about
13.1 months): past both thresholds at once. -/
def deepState : TierState := ⟨[("A", Bytes.plain ⟨some 0, 3⟩)], [], [], []⟩

/-- C10 witness: the 400 day old Hot record traverses both tiers in one
pass and lands in Archive. -/
theorem hot_to_archive_same_pass_witness :
    lookupT (manage_data_tiers 34560000 noFaults deepState).1.hot "A" = none ∧
    lookupT (manage_data_tiers 34560000 noFaults deepState).1.cool "A" = none ∧
    lookupT (manage_data_tiers 34560000 noFaults deepState).1.archive "A" =
      some (Bytes.gzipped ARCHIVE_COMPRESSION_LEVEL ⟨some 0, 3⟩) :=
  hot_to_archive_same_pass 34560000 0 deepState "A" ⟨some 0, 3⟩
    ⟨by decide, by decide⟩ (by decide) rfl (by decide)

/-- C5: retrieval probes Hot before Cool and returns on the first hit: a
readable Hot copy is returned whatever Cool and Archive hold (in particular
when the identifier is present in both Hot and Cool the Hot copy wins), and
when Hot has no file for the identifier a readable Cool copy is returned
next; neither probe rehydrates or changes any tier. -/
theorem retrieve_probes_hot_before_cool (s : TierState) (id : String)
    (hp cf : Bool) (d : RecordData) (lvl : Nat) :
    (lookupT s.hot id = some (Bytes.plain d) →
      retrieve_data s id hp cf = (some d, s)) ∧
    (lookupT s.hot id = none →
      lookupT s.cool id = some (Bytes.gzipped lvl d) →
      retrieve_data s id hp cf = (some d, s)) := by
  constructor
  · intro h
    unfold retrieve_data
    rw [h]
    rfl
  · intro h1 h2
    unfold retrieve_data
    rw [h1, h2]
    rfl

/-- The identifier A is present in Hot and Cool at once, with distinct
record payloads, so the probe order is observable. -/
def bothTiersState : TierState :=
  ⟨[("A", Bytes.plain ⟨some 0, 1⟩)], [("A", Bytes.gzipped 5 ⟨some 0, 2⟩)], [], []⟩

/-- C5 witness: with the identifier in both Hot and Cool, retrieval returns
the Hot payload (content 1), not the Cool payload (content 2). -/
theorem retrieve_probes_hot_before_cool_witness :
    retrieve_data bothTiersState "A" false false =
      (some ⟨some 0, 1⟩, bothTiersState) :=
  (retrieve_probes_hot_before_cool bothTiersState "A" false false
    ⟨some 0, 1⟩ 5).1 (by decide)

/-- The identifier A is present in Hot, but its file holds gzip bytes that
the uncompressed hot read cannot parse. -/
def corruptHotState : TierState := ⟨[("A", Bytes.gzipped 5 ⟨some 0, 7⟩)], [], [], []⟩

/-- C6 counterexample: retrieval returns the failure result (None) for an
identifier that is NOT absent from all three tiers: its Hot file exists but
does not parse, the handler in read_data returns None, and retrieve_data
returns that None without probing Cool or Archive.  The failure result is
therefore not equivalent to absence from all three tiers. -/
theorem found_but_unreadable_retrieval_fails :
    (retrieve_data corruptHotState "A" false false).1 = none ∧
    lookupT corruptHotState.hot "A" ≠ none := by
  constructor
  · decide
  · decide

/-- C6 amended: retrieval returns the failure result None if and only if
either the identifier is absent from all three of Hot, Cool and Archive, or
the first tier holding it (in probe order) holds a payload that fails to
decode with the compression flag that tier is read with. -/
theorem retrieve_failure_characterization (s : TierState) (id : String)
    (hp cf : Bool) :
    (retrieve_data s id hp cf).1 = none ↔
      (lookupT s.hot id = none ∧ lookupT s.cool id = none ∧
        lookupT s.archive id = none) ∨
      (∃ b c, firstHit s id = some (b, c) ∧ decodeBytes b c = none) := by
  unfold retrieve_data firstHit
  cases hh : lookupT s.hot id with
  | some b =>
    cases hd : decodeBytes b false with
    | some d => simp [read_data, hd]
    | none => simp [read_data, hd]
  | none =>
    cases hc : lookupT s.cool id with
    | some b =>
      cases hd : decodeBytes b true with
      | some d => simp [read_data, hd]
      | none => simp [read_data, hd]
    | none =>
      cases ha : lookupT s.archive id with
      | some b =>
        cases hd : decodeBytes b true with
        | some d => simp [read_data, hd]
        | none => simp [read_data, hd]
      | none => simp

/-- C8: for an identifier found only in Archive whose payload decodes, the
fault-free retrieval returns the decoded record, writes exactly that record
uncompressed into the rehydrated cache under the identifier (overwriting any
prior cache entry), and leaves the archive tier, and every other lifecycle
tier, unchanged. -/
theorem archive_retrieval_rehydrates (s : TierState) (id : String) (hp : Bool)
    (b : Bytes) (d : RecordData)
    (hh : lookupT s.hot id = none) (hc : lookupT s.cool id = none)
    (ha : lookupT s.archive id = some b)
    (hd : decodeBytes b true = some d) :
    retrieve_data s id hp false =
      (some d,
        { s with rehydrated := setEntry s.rehydrated id (Bytes.plain d) }) ∧
    (retrieve_data s id hp false).2.archive = s.archive ∧
    lookupT (retrieve_data s id hp false).2.rehydrated id =
      some (Bytes.plain d) := by
  have h1 : retrieve_data s id hp false =
      (some d,
        { s with rehydrated := setEntry s.rehydrated id (Bytes.plain d) }) := by
    unfold retrieve_data
    rw [hh, hc, ha]
    simp [read_data, hd]
  refine ⟨h1, ?_, ?_⟩
  · rw [h1]
  · rw [h1]
    simp [lookupT_setEntry]

/-- The identifier A lives only in Archive; the rehydrated cache already
holds a stale prior entry for A, to be overwritten. -/
def archOnlyState : TierState :=
  ⟨[], [], [("A", Bytes.gzipped 9 ⟨some 0, 4⟩)], [("A", Bytes.plain ⟨some 9, 9⟩)]⟩

/-- C8 witness: the expedited retrieval of the archive-only record returns
it, overwrites the stale cache entry, and leaves the archive copy intact. -/
theorem archive_retrieval_rehydrates_witness :
    retrieve_data archOnlyState "A" true false =
      (some ⟨some 0, 4⟩,
        { archOnlyState with
            rehydrated := setEntry archOnlyState.rehydrated "A"
              (Bytes.plain ⟨some 0, 4⟩) }) ∧
    (retrieve_data archOnlyState "A" true false).2.archive =
      archOnlyState.archive ∧
    lookupT (retrieve_data archOnlyState "A" true false).2.rehydrated "A" =
      some (Bytes.plain ⟨some 0, 4⟩) :=
  archive_retrieval_rehydrates archOnlyState "A" true
    (Bytes.gzipped 9 ⟨some 0, 4⟩) ⟨some 0, 4⟩ (by decide) (by decide)
    (by decide) (by decide)

/-- C9: retrieval is total: for every state, identifier, priority and cache
fault, it either returns a decoded record, or it returns the failure result
None with the state unchanged.  Every fallible operation it performs (missing
file, unparsable payload, failing cache write) is caught on the way: no
failure escapes. -/
theorem retrieve_total (s : TierState) (id : String) (hp cf : Bool) :
    (∃ d, (retrieve_data s id hp cf).1 = some d) ∨
      retrieve_data s id hp cf = (none, s) := by
  unfold retrieve_data
  cases hh : lookupT s.hot id with
  | some b =>
    cases hd : decodeBytes b false with
    | some d => left; exact ⟨d, by simp [read_data, hd]⟩
    | none => right; simp [read_data, hd]
  | none =>
    cases hc : lookupT s.cool id with
    | some b =>
      cases hd : decodeBytes b true with
      | some d => left; exact ⟨d, by simp [read_data, hd]⟩
      | none => right; simp [read_data, hd]
    | none =>
      cases ha : lookupT s.archive id with
      | some b =>
        cases hd : decodeBytes b true with
        | some d => left; exact ⟨d, by simp [read_data, hd]⟩
        | none => right; simp [read_data, hd]
      | none => right; rfl
